import Mathlib

/-!
Verification of the ReAct agent core (`src/agent/agent.py`) against its
natural-language specification.

The embedding works on `List Char` at the core.  Python's `re` module is
Unicode-aware; this embedding models the character classes `\s` and `\w`
and `str.strip` / `IGNORECASE` at the ASCII level, which is where every
marker and every claim lives.
-/

/-- Python regex class `\s` (ASCII part): space, tab, newline, carriage
return, vertical tab, form feed. -/
def isPySpace (c : Char) : Bool :=
  decide (c.toNat = 32 ∨ c.toNat = 9 ∨ c.toNat = 10 ∨ c.toNat = 13 ∨ c.toNat = 11 ∨ c.toNat = 12)

/-- Python regex class `\w` (ASCII part): letters, digits, underscore. -/
def isWordChar (c : Char) : Bool :=
  decide ((65 ≤ c.toNat ∧ c.toNat ≤ 90) ∨ (97 ≤ c.toNat ∧ c.toNat ≤ 122) ∨
    (48 ≤ c.toNat ∧ c.toNat ≤ 57) ∨ c.toNat = 95)

/-- Newline character test (`\n`). -/
def isNL (c : Char) : Bool := decide (c.toNat = 10)

/-- Lower-case image of a character list; `re.IGNORECASE` matching compares
these images (ASCII case folding, as in `Char.toLower`). -/
def lowerL (l : List Char) : List Char := l.map Char.toLower

/-- Python `str.strip()` (ASCII whitespace): drop whitespace from both ends. -/
def pyStrip (l : List Char) : List Char :=
  ((l.dropWhile isPySpace).reverse.dropWhile isPySpace).reverse

/-- Does `pat` match case-insensitively at the head of `s`? -/
def isCIPrefixOf (pat s : List Char) : Bool :=
  decide (lowerL (s.take pat.length) = lowerL pat)

/-- Leftmost case-insensitive occurrence of `pat` in `s`; returns the suffix
of `s` that follows the matched occurrence. -/
def searchCI (pat : List Char) : List Char → Option (List Char)
  | [] => if isCIPrefixOf pat [] then some [] else none
  | c :: rest =>
    if isCIPrefixOf pat (c :: rest) then some ((c :: rest).drop pat.length)
    else searchCI pat rest

/-- The marker of the final-answer regex `FINAL ANSWER:\s*(.+?)(?:\n|$)`. -/
def faMarkerL : List Char := "FINAL ANSWER:".toList

/-- The marker of the tool regex `TOOL:\s*(\w+)`. -/
def toolMarkerL : List Char := "TOOL:".toList

/-- The marker of the args regex `ARGS:\s*(\{.+?\})` (matched case-sensitively:
that regex is compiled without `re.IGNORECASE`). -/
def argsMarkerL : List Char := "ARGS:".toList

/-- Tail match of `\s*(.+?)(?:\n|$)` under `re.DOTALL`, applied to the text `t`
that follows a `FINAL ANSWER:` occurrence.  Backtracking order of CPython's
engine: the greedy `\s*` first takes the maximal whitespace prefix; the lazy
`(.+?)` then captures up to (excluding) the first newline, or to the end of
the input.  When `t` is all whitespace, `.+?` needs at least one character, so
`\s*` gives back exactly one character and the capture is the last character
of `t` (the pattern then ends at end of input).  When `t` is empty there is no
match. -/
def tryTail : List Char → Option (List Char)
  | [] => none
  | c :: cs =>
    let rest := (c :: cs).dropWhile isPySpace
    match rest with
    | [] => some [(c :: cs).getLastD c]
    | r :: rs => some ((r :: rs).takeWhile (fun x => ! isNL x))

/-- `re.search(r'FINAL ANSWER:\s*(.+?)(?:\n|$)', s, re.DOTALL | re.IGNORECASE)`:
scan left to right for a case-insensitive occurrence of the marker whose tail
admits the rest of the pattern; return the capture group. -/
def faSearch : List Char → Option (List Char)
  | [] => none
  | c :: rest =>
    if isCIPrefixOf faMarkerL (c :: rest) then
      match tryTail ((c :: rest).drop faMarkerL.length) with
      | some cap => some cap
      | none => faSearch rest
    else faSearch rest

/-- Tail match of `\s*(\w+)` applied to the text after a `TOOL:` occurrence:
skip the maximal whitespace run; succeed iff a word character follows, with
the greedy `(\w+)` capturing the maximal word-character run.  (Backtracking
`\s*` cannot help: a shorter whitespace run leaves `\w` facing whitespace.) -/
def toolTail (t : List Char) : Option (List Char) :=
  let rest := t.dropWhile isPySpace
  match rest.takeWhile isWordChar with
  | [] => none
  | w :: ws => some (w :: ws)

/-- `re.search(r'TOOL:\s*(\w+)', s, re.IGNORECASE)`: scan left to right; at
each case-insensitive `TOOL:` occurrence try the tail; on failure keep
scanning (a later occurrence may still match). -/
def toolSearch : List Char → Option (List Char)
  | [] => none
  | c :: rest =>
    if isCIPrefixOf toolMarkerL (c :: rest) then
      match toolTail ((c :: rest).drop toolMarkerL.length) with
      | some w => some w
      | none => toolSearch rest
    else toolSearch rest

/-- Lazy `.+?` before a literal `\}` (under `re.DOTALL`): the shortest
non-empty prefix of `u` that is followed by a closing brace; returns that
prefix (the brace is consumed by the caller). -/
def lazyBrace : List Char → Option (List Char)
  | [] => none
  | c :: rest =>
    if (rest.headD c).toNat = 125 ∧ rest ≠ [] then some [c]
    else (lazyBrace rest).map (fun inner => c :: inner)

/-- Tail match of `\s*(\{.+?\})` after an `ARGS:` occurrence: skip maximal
whitespace, require `{`, then the shortest block closed by `}` with at least
one character inside.  The capture group includes both braces. -/
def argsTail (t : List Char) : Option (List Char) :=
  match t.dropWhile isPySpace with
  | b :: u =>
    if b.toNat = 123 then
      (lazyBrace u).map (fun inner => b :: (inner ++ [Char.ofNat 125]))
    else none
  | [] => none

/-- `re.search(r'ARGS:\s*(\{.+?\})', s, re.DOTALL)` — note: case-SENSITIVE
(this regex is the only one compiled without `re.IGNORECASE`). -/
def argsSearch : List Char → Option (List Char)
  | [] => none
  | c :: rest =>
    if argsMarkerL.isPrefixOf (c :: rest) then
      match argsTail ((c :: rest).drop argsMarkerL.length) with
      | some g => some g
      | none => argsSearch rest
    else argsSearch rest

/-- JSON values as produced by Python's `json.loads`.  Numbers keep their
source lexeme (no claim computes with numeric values, and this avoids
modelling floating point); `NaN`, `Infinity` and `-Infinity` (accepted by
Python's decoder) are numbers with those lexemes. -/
inductive JValue where
  | jnull : JValue
  | jbool (b : Bool) : JValue
  | jnum (lexeme : String) : JValue
  | jstr (s : String) : JValue
  | jarr (elems : List JValue) : JValue
  | jobj (fields : List (String × JValue)) : JValue

/-- JSON insignificant whitespace (space, tab, newline, carriage return). -/
def jsonWsChar (c : Char) : Bool :=
  decide (c.toNat = 32 ∨ c.toNat = 9 ∨ c.toNat = 10 ∨ c.toNat = 13)

/-- Skip JSON whitespace. -/
def jsonWsDrop (l : List Char) : List Char := l.dropWhile jsonWsChar

/-- Value of a hexadecimal digit. -/
def jhexVal (c : Char) : Option Nat :=
  if 48 ≤ c.toNat ∧ c.toNat ≤ 57 then some (c.toNat - 48)
  else if 97 ≤ c.toNat ∧ c.toNat ≤ 102 then some (c.toNat - 87)
  else if 65 ≤ c.toNat ∧ c.toNat ≤ 70 then some (c.toNat - 55)
  else none

/-- Scan a JSON string body (the opening quote is already consumed); returns
the decoded characters and the input after the closing quote.  Mirrors the
strict decoder: raw control characters below 0x20 are rejected, the escapes
are `\" \\ \/ \b \f \n \r \t \uXXXX`.  (Python combines `\u` surrogate pairs
into one code point; here each `\uXXXX` becomes one `Char.ofNat`, which does
not change which inputs are accepted.) -/
def jscanString : Nat → List Char → Option (List Char × List Char)
  | 0, _ => none
  | _ + 1, [] => none
  | f + 1, c :: rest =>
    if c.toNat = 34 then some ([], rest)
    else if c.toNat = 92 then
      match rest with
      | [] => none
      | e :: rest2 =>
        if e.toNat = 34 ∨ e.toNat = 92 ∨ e.toNat = 47 then
          (jscanString f rest2).map (fun p => (e :: p.1, p.2))
        else if e.toNat = 98 then
          (jscanString f rest2).map (fun p => (Char.ofNat 8 :: p.1, p.2))
        else if e.toNat = 102 then
          (jscanString f rest2).map (fun p => (Char.ofNat 12 :: p.1, p.2))
        else if e.toNat = 110 then
          (jscanString f rest2).map (fun p => (Char.ofNat 10 :: p.1, p.2))
        else if e.toNat = 114 then
          (jscanString f rest2).map (fun p => (Char.ofNat 13 :: p.1, p.2))
        else if e.toNat = 116 then
          (jscanString f rest2).map (fun p => (Char.ofNat 9 :: p.1, p.2))
        else if e.toNat = 117 then
          match rest2 with
          | h1 :: h2 :: h3 :: h4 :: rest3 =>
            match jhexVal h1, jhexVal h2, jhexVal h3, jhexVal h4 with
            | some a, some b, some c2, some d =>
              (jscanString f rest3).map
                (fun p => (Char.ofNat (4096 * a + 256 * b + 16 * c2 + d) :: p.1, p.2))
            | _, _, _, _ => none
          | _ => none
        else none
    else if c.toNat < 32 then none
    else (jscanString f rest).map (fun p => (c :: p.1, p.2))

/-- Is `c` a decimal digit? -/
def jdigit (c : Char) : Bool := decide (48 ≤ c.toNat ∧ c.toNat ≤ 57)

/-- Scan a JSON number, following the decoder's grammar
`-?(0|[1-9][0-9]*)(\.[0-9]+)?([eE][-+]?[0-9]+)?`; returns the lexeme and the
rest of the input. -/
def jscanNumber (l : List Char) : Option (List Char × List Char) :=
  let sgn : List Char × List Char :=
    match l with
    | c :: r => if c.toNat = 45 then ([c], r) else ([], l)
    | [] => ([], l)
  match sgn.2 with
  | [] => none
  | c :: r =>
    if ! jdigit c then none
    else
      let ip : List Char × List Char :=
        if c.toNat = 48 then ([c], r)
        else ((c :: r).takeWhile jdigit, (c :: r).dropWhile jdigit)
      let fp : Option (List Char × List Char) :=
        match ip.2 with
        | d :: r2 =>
          if d.toNat = 46 then
            match r2.takeWhile jdigit with
            | [] => none
            | ds => some (d :: ds, r2.dropWhile jdigit)
          else some ([], ip.2)
        | [] => some ([], ip.2)
      match fp with
      | none => none
      | some fpv =>
        let ep : Option (List Char × List Char) :=
          match fpv.2 with
          | e :: r3 =>
            if e.toNat = 101 ∨ e.toNat = 69 then
              let sr : List Char × List Char :=
                match r3 with
                | s :: r4 => if s.toNat = 43 ∨ s.toNat = 45 then ([s], r4) else ([], r3)
                | [] => ([], r3)
              match sr.2.takeWhile jdigit with
              | [] => none
              | ds => some (e :: (sr.1 ++ ds), sr.2.dropWhile jdigit)
            else some ([], fpv.2)
          | [] => some ([], fpv.2)
        match ep with
        | none => none
        | some epv => some (sgn.1 ++ ip.1 ++ fpv.1 ++ epv.1, epv.2)

/-- Pending context of the JSON parser: an array with the elements parsed so
far (reversed), or an object with the members parsed so far (reversed) and
the key whose value is being parsed. -/
inductive JCtx where
  | arrCtx (elems : List JValue) : JCtx
  | objCtx (fields : List (String × JValue)) (key : String) : JCtx

/-- Parser mode: about to parse a value, or just produced one and returning
it into the innermost pending context. -/
inductive JMode where
  | value : JMode
  | closing (v : JValue) : JMode

/-- One-pass stack machine for the JSON grammar accepted by `json.loads`
(strict mode plus `NaN`/`Infinity`/`-Infinity`).  Structural recursion on
fuel; every recursive call consumes at least one input character, so fuel
`length + 1` never runs out on the paths that matter. -/
def jrun : Nat → JMode → List JCtx → List Char → Option (JValue × List Char)
  | 0, _, _, _ => none
  | f + 1, JMode.closing v, stack, l =>
    match stack with
    | [] => some (v, l)
    | JCtx.arrCtx elems :: st =>
      match jsonWsDrop l with
      | c :: r =>
        if c.toNat = 44 then jrun f JMode.value (JCtx.arrCtx (v :: elems) :: st) r
        else if c.toNat = 93 then jrun f (JMode.closing (JValue.jarr (v :: elems).reverse)) st r
        else none
      | [] => none
    | JCtx.objCtx fields key :: st =>
      match jsonWsDrop l with
      | c :: r =>
        if c.toNat = 44 then
          match jsonWsDrop r with
          | k :: r2 =>
            if k.toNat = 34 then
              match jscanString (r2.length + 1) r2 with
              | some (keyChars, r3) =>
                match jsonWsDrop r3 with
                | c2 :: r4 =>
                  if c2.toNat = 58 then
                    jrun f JMode.value (JCtx.objCtx ((key, v) :: fields) (String.mk keyChars) :: st) r4
                  else none
                | [] => none
              | none => none
            else none
          | [] => none
        else if c.toNat = 125 then
          jrun f (JMode.closing (JValue.jobj (((key, v) :: fields).reverse))) st r
        else none
      | [] => none
  | f + 1, JMode.value, stack, l =>
    match jsonWsDrop l with
    | [] => none
    | c :: r =>
      if c.toNat = 123 then
        match jsonWsDrop r with
        | c2 :: r2 =>
          if c2.toNat = 125 then jrun f (JMode.closing (JValue.jobj [])) stack r2
          else if c2.toNat = 34 then
            match jscanString (r2.length + 1) r2 with
            | some (keyChars, r3) =>
              match jsonWsDrop r3 with
              | c3 :: r4 =>
                if c3.toNat = 58 then
                  jrun f JMode.value (JCtx.objCtx [] (String.mk keyChars) :: stack) r4
                else none
              | [] => none
            | none => none
          else none
        | [] => none
      else if c.toNat = 91 then
        match jsonWsDrop r with
        | c2 :: r2 =>
          if c2.toNat = 93 then jrun f (JMode.closing (JValue.jarr [])) stack r2
          else jrun f JMode.value (JCtx.arrCtx [] :: stack) r
        | [] => none
      else if c.toNat = 34 then
        match jscanString (r.length + 1) r with
        | some (chars, r2) => jrun f (JMode.closing (JValue.jstr (String.mk chars))) stack r2
        | none => none
      else if "true".toList.isPrefixOf (c :: r) then
        jrun f (JMode.closing (JValue.jbool true)) stack ((c :: r).drop 4)
      else if "false".toList.isPrefixOf (c :: r) then
        jrun f (JMode.closing (JValue.jbool false)) stack ((c :: r).drop 5)
      else if "null".toList.isPrefixOf (c :: r) then
        jrun f (JMode.closing JValue.jnull) stack ((c :: r).drop 4)
      else if "NaN".toList.isPrefixOf (c :: r) then
        jrun f (JMode.closing (JValue.jnum "NaN")) stack ((c :: r).drop 3)
      else if "Infinity".toList.isPrefixOf (c :: r) then
        jrun f (JMode.closing (JValue.jnum "Infinity")) stack ((c :: r).drop 8)
      else if "-Infinity".toList.isPrefixOf (c :: r) then
        jrun f (JMode.closing (JValue.jnum "-Infinity")) stack ((c :: r).drop 9)
      else
        match jscanNumber (c :: r) with
        | some (lexeme, r2) => jrun f (JMode.closing (JValue.jnum (String.mk lexeme))) stack r2
        | none => none

/-- `json.loads`: parse one JSON value and require that only whitespace
follows.  (On duplicate object keys Python keeps the last value; this model
keeps all members in order.  No claim inspects duplicate-key objects.) -/
def jsonLoads (l : List Char) : Option JValue :=
  match jrun (l.length + 1) JMode.value [] l with
  | some (v, rest) => if jsonWsDrop rest = [] then some v else none
  | none => none

/-- `json.loads` specialised to the call site in `_parse_response`: the
argument always starts with `{`, so a successful parse is an object; the
wildcard branch is unreachable there. -/
def jsonLoadsObj (l : List Char) : Option (List (String × JValue)) :=
  match jsonLoads l with
  | some (JValue.jobj fields) => some fields
  | _ => none

/-- `_parse_response` on character lists.  Returns the Python triple
`(tool_name, tool_args, final_answer)`: final answer first (this
short-circuits tool detection), else tool name with arguments parsed from the
first `ARGS:` block (empty mapping when the block is absent or its JSON is
invalid), else `(none, [], none)`. -/
def parseResponseL (s : List Char) : Option (List Char) × List (String × JValue) × Option (List Char) :=
  match faSearch s with
  | some cap => (none, [], some (pyStrip cap))
  | none =>
    match toolSearch s with
    | some nm =>
      let args : List (String × JValue) :=
        match argsSearch s with
        | some g =>
          match jsonLoadsObj g with
          | some fields => fields
          | none => []
        | none => []
      (some (pyStrip nm), args, none)
    | none => (none, [], none)

/-- `_parse_response` at the string boundary, as in the source: the triple
`(tool_name, tool_args, final_answer)` with the two optional components
repacked as strings. -/
def parse_response (response : String) : Option String × List (String × JValue) × Option String :=
  ((parseResponseL response.toList).1.map String.mk,
   (parseResponseL response.toList).2.1,
   (parseResponseL response.toList).2.2.map String.mk)

/-- An apostrophe, as a one-character string (used by the error-message
f-strings of `_execute_tool`). -/
def apostr : String := String.singleton (Char.ofNat 39)

/-- Outcome of invoking a registered tool callable with expanded keyword
arguments, as observed at the `try` block of `_execute_tool`: a returned
observation string, a raised `TypeError` (argument mismatch at the call
boundary, or any `TypeError` from inside the tool), or any other raised
exception; the payload is `str(e)`. -/
inductive ToolResult where
  | ok (obs : String) : ToolResult
  | typeErrorRaised (msg : String) : ToolResult
  | exceptionRaised (msg : String) : ToolResult

/-- A tool callable.  The five registered tools (`src/agent/tools.py`) wrap
third-party HTTP services; the spec treats them as external collaborators, so
the embedding quantifies over their behaviour. -/
def ToolImpl : Type := List (String × JValue) → ToolResult

/-- The behaviours of the five registered tools. -/
structure ToolImpls where
  calculator : ToolImpl
  get_weather : ToolImpl
  get_earthquake_data : ToolImpl
  search_arxiv : ToolImpl
  get_currency_exchange : ToolImpl

/-- The tool registry of `src/agent/tools.py`: insertion-ordered mapping from
tool name to callable. -/
def TOOLS (impls : ToolImpls) : List (String × ToolImpl) :=
  [("calculator", impls.calculator),
   ("get_weather", impls.get_weather),
   ("get_earthquake_data", impls.get_earthquake_data),
   ("search_arxiv", impls.search_arxiv),
   ("get_currency_exchange", impls.get_currency_exchange)]

/-- `_execute_tool`: total dispatch.  Unknown names yield the deterministic
error observation enumerating the registered names (`', '.join(TOOLS.keys())`);
a raised `TypeError` yields the invalid-arguments observation; any other
exception yields the generic failure observation.  All paths return text. -/
def execute_tool (impls : ToolImpls) (tool_name : String) (args : List (String × JValue)) : String :=
  match (TOOLS impls).lookup tool_name with
  | none =>
    "ERROR: Unknown tool " ++ apostr ++ tool_name ++ apostr ++ ". Available tools: " ++
      String.intercalate ", " ((TOOLS impls).map Prod.fst)
  | some f =>
    match f args with
    | ToolResult.ok obs => obs
    | ToolResult.typeErrorRaised e =>
      "ERROR: Invalid arguments for tool " ++ apostr ++ tool_name ++ apostr ++ ": " ++ e
    | ToolResult.exceptionRaised e => "ERROR: Tool execution failed: " ++ e

/-- `get_tool_descriptions()` from `src/agent/tools.py` (a fixed string). -/
def get_tool_descriptions : String :=
  "\nAvailable Tools:\n\n1. calculator(expression: str) -> str\n   - Performs arithmetic calculations and percentage operations\n   - Example: calculator(\"100 * 0.15\") or calculator(\"50 + 25\")\n\n2. get_weather(location: str) -> str\n   - Gets current weather for a location\n   - Example: get_weather(\"Boise\") or get_weather(\"New York\")\n\n3. get_earthquake_data(region: str = \"all\", min_magnitude: float = 4.5) -> str\n   - Gets recent earthquake data from USGS\n   - Example: get_earthquake_data(\"California\", 4.0)\n\n4. search_arxiv(query: str, max_results: int = 3) -> str\n   - Searches for research papers on arXiv\n   - Example: search_arxiv(\"transformers\", 3)\n\n5. get_currency_exchange(from_currency: str, to_currency: str, amount: float = 1.0) -> str\n   - Converts currency amounts\n   - Example: get_currency_exchange(\"USD\", \"EUR\", 200)\n\nTo use a tool, respond with:\nTOOL: tool_name\nARGS: \x7b\"arg1\": \"value1\", \"arg2\": value2\x7d\n\nWhen you have the final answer, respond with:\nFINAL ANSWER: [your answer here]\n"

/-- `_create_system_prompt()`: the system message seeded into every run. -/
def systemPrompt : String :=
  "You are a helpful assistant that uses a ReAct (Reason + Act + Observe) approach to answer questions.\n\n"
    ++ get_tool_descriptions
    ++ "\n\nInstructions:\n1. REASON about the user" ++ apostr
    ++ "s question and what information you need\n2. If you need to use a tool, respond with:\n   TOOL: tool_name\n   ARGS: \x7b\"arg1\": \"value1\", \"arg2\": value2\x7d\n   \n3. After using a tool, you will receive an OBSERVATION\n4. Continue reasoning and using tools as needed\n5. When you have enough information, provide the FINAL ANSWER:\n   FINAL ANSWER: [your complete answer here]\n\nImportant:\n- Use tools ONE AT A TIME\n- Think step by step\n- Show your reasoning before each action\n- Be precise with tool arguments (use correct types: strings in quotes, numbers without quotes)\n- When doing calculations with percentages, use the calculator tool\n- Always provide a FINAL ANSWER when you"
    ++ apostr
    ++ "re done\n\nExample flow:\nUser: What is 15% of 200?\nAssistant: I need to calculate 15% of 200. I"
    ++ apostr
    ++ "ll use the calculator.\nTOOL: calculator\nARGS: \x7b\"expression\": \"200 * 0.15\"\x7d\n[You receive observation]\nFINAL ANSWER: 15% of 200 is 30.\n"

/-- One transcript message: a role (`system` / `user` / `assistant`) and its
text content. -/
structure Message where
  role : String
  content : String
deriving DecidableEq

/-- The corrective nudge appended when a reply is neither a (truthy) final
answer nor a tool call. -/
def nudgeMsg : String :=
  "Please either use a tool (TOOL: ... ARGS: ...) or provide a FINAL ANSWER."

/-- The terminal message for a run whose iteration budget is exhausted; it
names the configured maximum. -/
def budgetExhaustedMsg (max_iterations : Nat) : String :=
  "I apologize, but I couldn" ++ apostr ++ "t complete the task within " ++ toString max_iterations
    ++ " steps. Please try rephrasing your question or breaking it into smaller parts."

/-- The terminal message when the completion client raises; the payload is
`str(e)`. -/
def llmErrorMsg (e : String) : String := "Error communicating with LLM: " ++ e

/-- The initial transcript of a run: system prompt, then the user query. -/
def initialMessages (user_query : String) : List Message :=
  [⟨"system", systemPrompt⟩, ⟨"user", user_query⟩]

/-- Ghost record of what one loop iteration did: the completion call raised;
a (truthy) final answer ended the run; a tool was dispatched; or the
corrective nudge was appended.  Exactly one constructor applies per
iteration. -/
inductive IterEvent where
  | commFailure (err : String) : IterEvent
  | finalAnswerReached (reply answer : String) : IterEvent
  | toolStep (reply tool_name : String) (args : List (String × JValue)) (obs : String) : IterEvent
  | nudgeStep (reply : String) : IterEvent

/-- Result of a run together with its ghost trace: the returned answer, one
event per executed iteration, and the final transcript. -/
structure RunTrace where
  answer : String
  events : List IterEvent
  transcript : List Message

/-- Python truthiness of the `Optional[str]` components of the parse triple:
`None` and the empty string are falsy. -/
def optStrTruthy : Option (List Char) → Bool
  | none => false
  | some l => ! l.isEmpty

/-- The `while iteration < self.max_iterations` loop of `run`, with
`remaining` iterations left.  Each iteration: one completion call (a raised
exception returns the communication-error answer at once); parse the reply;
a truthy final answer returns it; a truthy tool name dispatches the tool and
appends the raw reply plus the observation message; otherwise the raw
reply plus the corrective nudge are appended.  Falling out of the loop
returns the budget-exhausted message.  The `events` and `transcript` fields
are ghost instrumentation; `answer` is the Python return value. -/
def runLoop (impls : ToolImpls) (chat : List Message → Except String String)
    (messages : List Message) : Nat → Nat → RunTrace
  | 0, max_iterations => ⟨budgetExhaustedMsg max_iterations, [], messages⟩
  | r + 1, max_iterations =>
    match chat messages with
    | Except.error e => ⟨llmErrorMsg e, [IterEvent.commFailure e], messages⟩
    | Except.ok resp =>
      let parsed := parseResponseL resp.toList
      if optStrTruthy parsed.2.2 then
        let ans := String.mk (parsed.2.2.getD [])
        ⟨ans, [IterEvent.finalAnswerReached resp ans], messages⟩
      else if optStrTruthy parsed.1 then
        let nm := String.mk (parsed.1.getD [])
        let obs := execute_tool impls nm parsed.2.1
        let messages2 := messages ++ [⟨"assistant", resp⟩, ⟨"user", "OBSERVATION: " ++ obs⟩]
        let t := runLoop impls chat messages2 r max_iterations
        ⟨t.answer, IterEvent.toolStep resp nm parsed.2.1 obs :: t.events, t.transcript⟩
      else
        let messages2 := messages ++ [⟨"assistant", resp⟩, ⟨"user", nudgeMsg⟩]
        let t := runLoop impls chat messages2 r max_iterations
        ⟨t.answer, IterEvent.nudgeStep resp :: t.events, t.transcript⟩

/-- `run(user_query)`: seed the transcript and iterate up to the configured
maximum.  `chat` is the completion-client boundary (`Except.error e` models a
raised exception with `str(e) = e`); `impls` are the tool behaviours.  The
function is total: it always produces an answer string. -/
def run (impls : ToolImpls) (chat : List Message → Except String String)
    (user_query : String) (max_iterations : Nat) : RunTrace :=
  runLoop impls chat (initialMessages user_query) max_iterations max_iterations

/-- The final-answer tail pattern matches exactly the non-empty tails. -/
theorem tryTail_isSome {t : List Char} (ht : t ≠ []) : ∃ cap, tryTail t = some cap := by
  match t with
  | [] => exact absurd rfl ht
  | c :: cs =>
    simp only [tryTail]
    cases h : (c :: cs).dropWhile isPySpace with
    | nil => exact ⟨_, rfl⟩
    | cons r rs => exact ⟨_, rfl⟩

/-- A case-insensitive prefix is no longer than the list it heads. -/
theorem isCIPrefixOf_length {pat s : List Char} (h : isCIPrefixOf pat s = true) :
    pat.length ≤ s.length := by
  have h' := of_decide_eq_true h
  have := congrArg List.length h'
  simp [lowerL] at this
  omega

/-- `faSearch` finds no match in inputs shorter than the marker. -/
theorem faSearch_short : ∀ s : List Char, s.length < faMarkerL.length → faSearch s = none := by
  intro s
  induction s with
  | nil => intro _; rfl
  | cons c rest ih =>
    intro hlen
    by_cases hp : isCIPrefixOf faMarkerL (c :: rest)
    · exact absurd (isCIPrefixOf_length hp) (by omega)
    · have hc : (c :: rest).length = rest.length + 1 := by simp
      simpa [faSearch, hp] using ih (by omega)

/-- When the first case-insensitive occurrence of `FINAL ANSWER:` has a
non-empty tail `t`, the full regex matches there and the capture is computed
from `t`. -/
theorem faSearch_eq : ∀ s t : List Char,
    searchCI faMarkerL s = some t → t ≠ [] → faSearch s = tryTail t := by
  intro s
  induction s with
  | nil =>
    intro t h _
    have h0 : isCIPrefixOf faMarkerL ([] : List Char) = false := by decide
    simp [searchCI, h0] at h
  | cons c rest ih =>
    intro t h ht
    by_cases hp : isCIPrefixOf faMarkerL (c :: rest)
    · simp only [searchCI, hp, if_true, Option.some.injEq] at h
      obtain ⟨cap, hcap⟩ := tryTail_isSome ht
      simp only [faSearch, hp, if_true]
      rw [h, hcap]
    · simp only [searchCI, hp, if_false] at h
      simpa [faSearch, hp] using ih t h ht

/-- When the first (hence only) case-insensitive occurrence of
`FINAL ANSWER:` is at the very end of the input, the final-answer regex has
no match: `(.+?)` needs at least one character after the marker, and no later
occurrence can exist. -/
theorem faSearch_none_of_marker_at_end : ∀ s : List Char,
    searchCI faMarkerL s = some [] → faSearch s = none := by
  intro s
  induction s with
  | nil =>
    intro h
    have h0 : isCIPrefixOf faMarkerL ([] : List Char) = false := by decide
    simp [searchCI, h0] at h
  | cons c rest ih =>
    intro h
    by_cases hp : isCIPrefixOf faMarkerL (c :: rest)
    · simp only [searchCI, hp, if_true, Option.some.injEq] at h
      have hlen13 : faMarkerL.length ≤ (c :: rest).length := isCIPrefixOf_length hp
      have hdrop := congrArg List.length h
      simp only [List.length_drop, List.length_nil] at hdrop
      have hc : (c :: rest).length = rest.length + 1 := by simp
      have hrest : rest.length < faMarkerL.length := by omega
      simp only [faSearch, hp, if_true]
      rw [h]
      simpa [tryTail] using faSearch_short rest hrest
    · simp only [searchCI, hp, if_false] at h
      simpa [faSearch, hp] using ih h

/-- Claim C1 (counterexample): the reply `TOOL: calculator\nFINAL ANSWER:`
contains both a `FINAL ANSWER:` marker and a `TOOL:` marker, yet
`_parse_response` classifies it as a tool call on `calculator`, not as a
final answer: the final-answer regex requires at least one character after
its marker. -/
theorem claim_C1_counterexample :
    (searchCI faMarkerL ("TOOL: calculator\nFINAL ANSWER:").toList).isSome = true ∧
    (searchCI toolMarkerL ("TOOL: calculator\nFINAL ANSWER:").toList).isSome = true ∧
    parse_response "TOOL: calculator\nFINAL ANSWER:" = (some "calculator", [], none) :=
  ⟨rfl, rfl, rfl⟩

/-- Claim C1 (amended): for every reply that contains a `TOOL:` marker and
whose first `FINAL ANSWER:` marker occurrence is followed by at least one
character, `_parse_response` classifies the reply as a final answer and never
as a tool call — final-answer detection is evaluated first and
short-circuits tool detection. -/
theorem claim_C1_thm (s : String) (t : List Char)
    (hfa : searchCI faMarkerL s.toList = some t) (ht : t ≠ [])
    (_htool : (searchCI toolMarkerL s.toList).isSome = true) :
    ((parse_response s).2.2).isSome = true ∧ (parse_response s).1 = none := by
  obtain ⟨cap, hcap⟩ := tryTail_isSome ht
  have hfs : faSearch s.toList = some cap := by
    rw [faSearch_eq s.toList t hfa ht, hcap]
  have hfs' : faSearch s.data = some cap := hfs
  constructor
  · simp [parse_response, parseResponseL, hfs']
  · simp [parse_response, parseResponseL, hfs']

/-- Witness for C1: a concrete reply with both markers and text after the
final-answer marker. -/
theorem claim_C1_witness :
    ((parse_response "FINAL ANSWER: done\nTOOL: calculator").2.2).isSome = true ∧
    (parse_response "FINAL ANSWER: done\nTOOL: calculator").1 = none :=
  claim_C1_thm "FINAL ANSWER: done\nTOOL: calculator" (" done\nTOOL: calculator".toList)
    rfl (by decide) rfl

/-- Characterisation of the final-answer capture: after the marker, maximal
whitespace (including line breaks) is skipped, then characters are captured
up to the next line break or the end of the reply; stripping makes the
all-whitespace backtracking case coincide with the empty capture. -/
theorem tryTail_characterize {t : List Char} (ht : t ≠ []) :
    ∃ cap, tryTail t = some cap ∧
      pyStrip cap = pyStrip ((t.dropWhile isPySpace).takeWhile (fun c => ! isNL c)) := by
  match t with
  | [] => exact absurd rfl ht
  | c :: cs =>
    cases h : (c :: cs).dropWhile isPySpace with
    | nil =>
      refine ⟨[(c :: cs).getLastD c], ?_, ?_⟩
      · simp only [tryTail]; rw [h]
      · have hmem : (c :: cs).getLastD c ∈ c :: cs := by
          rw [List.getLastD_eq_getLast?, List.getLast?_eq_getLast (c :: cs) (by simp)]
          exact List.getLast_mem _
        have hws : isPySpace ((c :: cs).getLastD c) = true :=
          List.dropWhile_eq_nil_iff.mp h _ hmem
        rw [List.getLastD_eq_getLast?] at hws
        simp [pyStrip, List.dropWhile, hws]
    | cons r rs =>
      refine ⟨(r :: rs).takeWhile (fun x => ! isNL x), ?_, ?_⟩
      · simp only [tryTail]; rw [h]
      · rfl

/-- Claim C2 (counterexample): in the reply `FINAL ANSWER:\nfoo` the marker
is followed by a line break; the characters after the marker up to the first
line break, trimmed, form the empty string, yet `_parse_response` returns the
final answer `foo`: the regex `\s*` skips the line break before capturing. -/
theorem claim_C2_counterexample :
    searchCI faMarkerL ("FINAL ANSWER:\nfoo").toList = some ("\nfoo".toList) ∧
    (parse_response "FINAL ANSWER:\nfoo").2.2 = some "foo" ∧
    (parse_response "FINAL ANSWER:\nfoo").2.2 ≠
      some (String.mk (pyStrip (("\nfoo".toList).takeWhile (fun c => ! isNL c)))) :=
  ⟨rfl, rfl, by decide⟩

/-- Claim C2 (amended): when the first `FINAL ANSWER:` marker occurrence
(matched case-insensitively) is followed by at least one character,
`_parse_response` returns a final answer whose text is obtained by skipping
all whitespace (including line breaks) directly after the marker, then taking
the characters up to the next line break or the end of the reply, trimmed of
surrounding whitespace; text on later lines is truncated away, and if only
whitespace follows the marker the answer text is empty. -/
theorem claim_C2_thm (s : String) (t : List Char)
    (hfa : searchCI faMarkerL s.toList = some t) (ht : t ≠ []) :
    parse_response s =
      (none, [], some (String.mk (pyStrip ((t.dropWhile isPySpace).takeWhile (fun c => ! isNL c))))) := by
  obtain ⟨cap, hcap, hstrip⟩ := tryTail_characterize ht
  have hfs : faSearch s.toList = some cap := by
    rw [faSearch_eq s.toList t hfa ht, hcap]
  have hfs' : faSearch s.data = some cap := hfs
  simp [parse_response, parseResponseL, hfs', hstrip]

/-- Witness for C2: a concrete reply with surrounding whitespace and a later
line after the captured text. -/
theorem claim_C2_witness :
    parse_response "FINAL ANSWER:  spaced out  \nrest" = (none, [], some "spaced out") :=
  claim_C2_thm "FINAL ANSWER:  spaced out  \nrest" ("  spaced out  \nrest".toList) rfl (by decide)

/-- Claim C10: when the (unique, leftmost) `FINAL ANSWER:` marker occurrence
is followed by no character at all — the marker sits at the very end of the
reply — `_parse_response` does not return a final answer, and parsing falls
through to tool detection: if the tool regex matches, the reply is classified
as a tool call on the matched name. -/
theorem claim_C10_thm (s : String) (h : searchCI faMarkerL s.toList = some []) :
    (parse_response s).2.2 = none ∧
    (∀ nm, toolSearch s.toList = some nm →
      (parse_response s).1 = some (String.mk (pyStrip nm))) := by
  have hfa : faSearch s.data = none := faSearch_none_of_marker_at_end s.toList h
  constructor
  · cases htool : toolSearch s.data with
    | none => simp [parse_response, parseResponseL, hfa, htool]
    | some nm => simp [parse_response, parseResponseL, hfa, htool]
  · intro nm hnm
    have hnm' : toolSearch s.data = some nm := hnm
    simp [parse_response, parseResponseL, hfa, hnm']

/-- Witness for C10: the reply `TOOL: calculator\nFINAL ANSWER:` ends with
the bare final-answer marker and is classified as a `calculator` tool call. -/
theorem claim_C10_witness :
    (parse_response "TOOL: calculator\nFINAL ANSWER:").2.2 = none ∧
    (parse_response "TOOL: calculator\nFINAL ANSWER:").1 = some "calculator" := by
  have h := claim_C10_thm "TOOL: calculator\nFINAL ANSWER:" rfl
  exact ⟨h.1, h.2 ("calculator".toList) rfl⟩

/-- Packing a valid (sub-surrogate) code point round-trips through
`Char.ofNat`. -/
theorem char_toNat_ofNat {m : Nat} (h : m < 55296) : (Char.ofNat m).toNat = m := by
  have hv : Nat.isValidChar m := Or.inl h
  simp [Char.ofNat, hv, Char.ofNatAux, Char.toNat, UInt32.toNat, BitVec.toNat_ofNatLt]

/-- `Char.toLower` either leaves a character unchanged or shifts an
upper-case ASCII letter down by 32. -/
theorem toLower_shift (c : Char) :
    (¬(65 ≤ c.toNat ∧ c.toNat ≤ 90) ∧ c.toLower = c) ∨
    (65 ≤ c.toNat ∧ c.toNat ≤ 90 ∧ (c.toLower).toNat = c.toNat + 32) := by
  by_cases h : c.toNat ≥ 65 ∧ c.toNat ≤ 90
  · right
    refine ⟨h.1, h.2, ?_⟩
    show (Char.toLower c).toNat = c.toNat + 32
    unfold Char.toLower
    rw [if_pos h]
    exact char_toNat_ofNat (by omega)
  · left
    refine ⟨h, ?_⟩
    show Char.toLower c = c
    unfold Char.toLower
    rw [if_neg h]

/-- Characters with equal code points are equal. -/
theorem char_eq_of_toNat_eq {c d : Char} (h : c.toNat = d.toNat) : c = d := by
  rw [← Char.ofNat_toNat c, ← Char.ofNat_toNat d, h]

/-- Whitespace-ness and word-character-ness are invariant under case
folding: characters with the same lower-case image agree on `isPySpace` and
on `isWordChar`.  (Case folding moves code points between 65–90 and 97–122,
and neither range meets the whitespace set while both lie in the word set.) -/
theorem pred_congr_of_toLower_eq {c d : Char} (h : c.toLower = d.toLower) :
    isPySpace c = isPySpace d ∧ isWordChar c = isWordChar d := by
  have htn : c.toLower.toNat = d.toLower.toNat := by rw [h]
  rcases toLower_shift c with ⟨hc, hcl⟩ | ⟨hc1, hc2, hcl⟩ <;>
    rcases toLower_shift d with ⟨hd, hdl⟩ | ⟨hd1, hd2, hdl⟩
  · have : c = d := by rw [← hcl, ← hdl, h]
    rw [this]
    exact ⟨rfl, rfl⟩
  · have hcd : c.toNat = d.toNat + 32 := by rw [← hdl, ← htn, hcl]
    constructor
    · have e1 : isPySpace c = false := by simp [isPySpace]; omega
      have e2 : isPySpace d = false := by simp [isPySpace]; omega
      rw [e1, e2]
    · have e1 : isWordChar c = true := by simp [isWordChar]; omega
      have e2 : isWordChar d = true := by simp [isWordChar]; omega
      rw [e1, e2]
  · have hcd : d.toNat = c.toNat + 32 := by rw [← hcl, htn, hdl]
    constructor
    · have e1 : isPySpace c = false := by simp [isPySpace]; omega
      have e2 : isPySpace d = false := by simp [isPySpace]; omega
      rw [e1, e2]
    · have e1 : isWordChar c = true := by simp [isWordChar]; omega
      have e2 : isWordChar d = true := by simp [isWordChar]; omega
      rw [e1, e2]
  · have : c = d := char_eq_of_toNat_eq (by omega)
    rw [this]
    exact ⟨rfl, rfl⟩

/-- Case folding commutes with `take`. -/
theorem lowerL_take (l : List Char) (n : Nat) : lowerL (l.take n) = (lowerL l).take n := by
  simp [lowerL, List.map_take]

/-- Case-insensitive prefix matching only depends on the lower-case image. -/
theorem isCIPrefixOf_congr {pat s t : List Char} (h : lowerL s = lowerL t) :
    isCIPrefixOf pat s = isCIPrefixOf pat t := by
  unfold isCIPrefixOf
  rw [lowerL_take, lowerL_take, h]

/-- Dropping leading whitespace commutes with case folding across lists with
the same lower-case image. -/
theorem lowerL_dropWhile_pySpace : ∀ s t : List Char, lowerL s = lowerL t →
    lowerL (s.dropWhile isPySpace) = lowerL (t.dropWhile isPySpace) := by
  intro s
  induction s with
  | nil =>
    intro t h
    have : t = [] := List.map_eq_nil_iff.mp h.symm
    rw [this]
  | cons c cs ih =>
    intro t h
    cases t with
    | nil => simp [lowerL] at h
    | cons d ds =>
      simp only [lowerL, List.map_cons, List.cons.injEq] at h
      have hsp := (pred_congr_of_toLower_eq h.1).1
      cases hc : isPySpace c with
      | true =>
        have hd : isPySpace d = true := by rw [← hsp, hc]
        simpa [List.dropWhile_cons, hc, hd] using ih ds h.2
      | false =>
        have hd : isPySpace d = false := by rw [← hsp, hc]
        simpa [List.dropWhile_cons, hc, hd, lowerL] using h

/-- Lists with the same lower-case image have equal length. -/
theorem lowerL_length {s t : List Char} (h : lowerL s = lowerL t) : s.length = t.length := by
  have := congrArg List.length h
  simpa [lowerL] using this

/-- Case folding commutes with `drop`. -/
theorem lowerL_drop (l : List Char) (n : Nat) : lowerL (l.drop n) = (lowerL l).drop n := by
  simp [lowerL, List.map_drop]

/-- Whether the tool-name tail matches depends only on the lower-case image
of the text after the marker. -/
theorem toolTail_congr {t1 t2 : List Char} (h : lowerL t1 = lowerL t2) :
    (toolTail t1).isSome = (toolTail t2).isSome := by
  have h' := lowerL_dropWhile_pySpace t1 t2 h
  cases h1 : t1.dropWhile isPySpace with
  | nil =>
    have h2 : t2.dropWhile isPySpace = [] := by
      rw [h1] at h'
      exact List.map_eq_nil_iff.mp h'.symm
    simp [toolTail, h1, h2]
  | cons a as =>
    cases h2 : t2.dropWhile isPySpace with
    | nil => rw [h1, h2] at h'; simp [lowerL] at h'
    | cons b bs =>
      rw [h1, h2] at h'
      simp only [lowerL, List.map_cons, List.cons.injEq] at h'
      have hw := (pred_congr_of_toLower_eq h'.1).2
      cases hwa : isWordChar a with
      | true =>
        have hwb : isWordChar b = true := by rw [← hw, hwa]
        simp [toolTail, h1, h2, List.takeWhile_cons, hwa, hwb]
      | false =>
        have hwb : isWordChar b = false := by rw [← hw, hwa]
        simp [toolTail, h1, h2, List.takeWhile_cons, hwa, hwb]

/-- Whether the final-answer tail matches is determined by emptiness. -/
theorem tryTail_eq_none_iff (t : List Char) : tryTail t = none ↔ t = [] := by
  cases t with
  | nil => simp [tryTail]
  | cons c cs =>
    simp only [tryTail]
    cases h : (c :: cs).dropWhile isPySpace <;> simp

/-- Whether the final-answer regex matches depends only on the lower-case
image of the reply (`re.IGNORECASE`). -/
theorem faSearch_isSome_congr : ∀ s t : List Char, lowerL s = lowerL t →
    (faSearch s).isSome = (faSearch t).isSome := by
  intro s
  induction s with
  | nil =>
    intro t h
    have : t = [] := List.map_eq_nil_iff.mp h.symm
    rw [this]
  | cons c cs ih =>
    intro t h
    cases t with
    | nil => simp [lowerL] at h
    | cons d ds =>
      have hpre := @isCIPrefixOf_congr faMarkerL _ _ h
      have htl : lowerL cs = lowerL ds := by
        simpa [lowerL] using congrArg List.tail h
      by_cases hp : isCIPrefixOf faMarkerL (c :: cs)
      · have hq : isCIPrefixOf faMarkerL (d :: ds) = true := by rw [← hpre]; exact hp
        have hlen : (c :: cs).length = (d :: ds).length := lowerL_length h
        by_cases hemp : (c :: cs).drop faMarkerL.length = []
        · have hemp2 : (d :: ds).drop faMarkerL.length = [] := by
            have := congrArg List.length hemp
            simp only [List.length_drop, List.length_nil] at this
            rw [List.drop_eq_nil_iff]
            omega
          have e1 : tryTail ((c :: cs).drop faMarkerL.length) = none :=
            (tryTail_eq_none_iff _).mpr hemp
          have e2 : tryTail ((d :: ds).drop faMarkerL.length) = none :=
            (tryTail_eq_none_iff _).mpr hemp2
          simpa [faSearch, hp, hq, e1, e2] using ih ds htl
        · have hemp2 : (d :: ds).drop faMarkerL.length ≠ [] := by
            intro hcon
            have := congrArg List.length hcon
            simp only [List.length_drop, List.length_nil] at this
            exact hemp (by rw [List.drop_eq_nil_iff]; omega)
          obtain ⟨cap1, e1⟩ := tryTail_isSome hemp
          obtain ⟨cap2, e2⟩ := tryTail_isSome hemp2
          simp [faSearch, hp, hq, e1, e2]
      · have hq : isCIPrefixOf faMarkerL (d :: ds) = false := by
          rw [← hpre]; exact Bool.of_not_eq_true hp ▸ rfl
        simpa [faSearch, hp, hq] using ih ds htl

/-- Whether the tool regex matches depends only on the lower-case image of
the reply (`re.IGNORECASE`). -/
theorem toolSearch_isSome_congr : ∀ s t : List Char, lowerL s = lowerL t →
    (toolSearch s).isSome = (toolSearch t).isSome := by
  intro s
  induction s with
  | nil =>
    intro t h
    have : t = [] := List.map_eq_nil_iff.mp h.symm
    rw [this]
  | cons c cs ih =>
    intro t h
    cases t with
    | nil => simp [lowerL] at h
    | cons d ds =>
      have hpre := @isCIPrefixOf_congr toolMarkerL _ _ h
      have htl : lowerL cs = lowerL ds := by
        simpa [lowerL] using congrArg List.tail h
      by_cases hp : isCIPrefixOf toolMarkerL (c :: cs)
      · have hq : isCIPrefixOf toolMarkerL (d :: ds) = true := by rw [← hpre]; exact hp
        have hdroplow : lowerL ((c :: cs).drop toolMarkerL.length) =
            lowerL ((d :: ds).drop toolMarkerL.length) := by
          rw [lowerL_drop, lowerL_drop, h]
        have htt := toolTail_congr hdroplow
        cases e1 : toolTail ((c :: cs).drop toolMarkerL.length) with
        | none =>
          have e2 : toolTail ((d :: ds).drop toolMarkerL.length) = none := by
            rw [e1] at htt
            cases e2 : toolTail ((d :: ds).drop toolMarkerL.length) with
            | none => rfl
            | some w => rw [e2] at htt; simp at htt
          simpa [toolSearch, hp, hq, e1, e2] using ih ds htl
        | some w =>
          have e2 : (toolTail ((d :: ds).drop toolMarkerL.length)).isSome = true := by
            rw [← htt, e1]; rfl
          obtain ⟨w2, e2'⟩ := Option.isSome_iff_exists.mp e2
          simp [toolSearch, hp, hq, e1, e2']
      · have hq : isCIPrefixOf toolMarkerL (d :: ds) = false := by
          rw [← hpre]; exact Bool.of_not_eq_true hp ▸ rfl
        simpa [toolSearch, hp, hq] using ih ds htl

/-- A successful args-regex match requires a literal, exactly-upper-case
`ARGS:` substring: the args regex is compiled without `re.IGNORECASE`. -/
theorem argsSearch_marker_exact : ∀ s : List Char, argsSearch s ≠ none → argsMarkerL <:+: s := by
  intro s
  induction s with
  | nil => intro h; simp [argsSearch] at h
  | cons c rest ih =>
    intro h
    by_cases hp : argsMarkerL.isPrefixOf (c :: rest)
    · exact (List.isPrefixOf_iff_prefix.mp hp).isInfix
    · have h' : argsSearch rest ≠ none := by
        simpa [argsSearch, hp] using h
      exact List.infix_cons (ih h')

/-- Claim C3 (counterexample): two replies that differ only in the letter
case of the `ARGS:` marker parse differently — the upper-case marker yields
the argument mapping, the lower-case one yields an empty mapping — so the
three markers are not all matched case-insensitively. -/
theorem claim_C3_counterexample :
    parse_response "TOOL: t\nARGS: \x7b\"a\": 1\x7d" = (some "t", [("a", JValue.jnum "1")], none) ∧
    parse_response "TOOL: t\nargs: \x7b\"a\": 1\x7d" = (some "t", [], none) :=
  ⟨rfl, rfl⟩

/-- Claim C3 (amended): the `FINAL ANSWER:` and `TOOL:` markers are matched
case-insensitively — whether each of those regexes matches depends only on
the lower-case image of the reply — but the `ARGS:` marker is matched
case-sensitively: the args regex can only match a reply containing the exact
upper-case substring `ARGS:`, and without such a match the parsed argument
mapping is empty. -/
theorem claim_C3_thm :
    (∀ s t : List Char, lowerL s = lowerL t → (faSearch s).isSome = (faSearch t).isSome) ∧
    (∀ s t : List Char, lowerL s = lowerL t → (toolSearch s).isSome = (toolSearch t).isSome) ∧
    (∀ s : List Char, ¬ argsMarkerL <:+: s → argsSearch s = none) ∧
    (∀ s : String, argsSearch s.toList = none → (parse_response s).2.1 = []) := by
  refine ⟨faSearch_isSome_congr, toolSearch_isSome_congr, ?_, ?_⟩
  · intro s h
    by_contra hne
    exact h (argsSearch_marker_exact s hne)
  · intro s h
    have h' : argsSearch s.data = none := h
    cases hfa : faSearch s.data with
    | some cap => simp [parse_response, parseResponseL, hfa]
    | none =>
      cases htool : toolSearch s.data with
      | some nm => simp [parse_response, parseResponseL, hfa, htool, h']
      | none => simp [parse_response, parseResponseL, hfa, htool]

/-- Witness for C3: lower-casing the final-answer and tool markers does not
change whether they match, while a lower-case `args:` marker is not matched
and leaves the mapping empty. -/
theorem claim_C3_witness :
    (faSearch ("final answer: x").toList).isSome = (faSearch ("FINAL ANSWER: x").toList).isSome ∧
    (toolSearch ("tool: calc").toList).isSome = (toolSearch ("TOOL: calc").toList).isSome ∧
    argsSearch ("args: \x7b\"a\": 1\x7d").toList = none ∧
    (parse_response "TOOL: t\nargs: \x7b\"a\": 1\x7d").2.1 = [] := by
  refine ⟨claim_C3_thm.1 _ _ (by decide), claim_C3_thm.2.1 _ _ (by decide),
    claim_C3_thm.2.2.1 _ (by decide), claim_C3_thm.2.2.2 _ rfl⟩

/-- Claim C4 (counterexample): the reply
`FINAL ANSWER: done\nTOOL: calculator\nARGS: {nope}` contains a valid `TOOL:`
marker and a present-but-unparseable `ARGS:` block, yet `_parse_response`
returns a final answer rather than a tool call: final-answer detection runs
first. -/
theorem claim_C4_counterexample :
    toolSearch ("FINAL ANSWER: done\nTOOL: calculator\nARGS: \x7bnope\x7d").toList =
      some ("calculator".toList) ∧
    argsSearch ("FINAL ANSWER: done\nTOOL: calculator\nARGS: \x7bnope\x7d").toList =
      some (("\x7bnope\x7d").toList) ∧
    jsonLoadsObj (("\x7bnope\x7d").toList) = none ∧
    parse_response "FINAL ANSWER: done\nTOOL: calculator\nARGS: \x7bnope\x7d" =
      (none, [], some "done") :=
  ⟨rfl, rfl, rfl, rfl⟩

/-- Claim C4 (amended): for every reply on which the final-answer regex does
not fire, containing a valid `TOOL:` marker and an `ARGS:` block that is
present but not parseable JSON, `_parse_response` still returns a tool call
for that tool with an empty argument mapping, rather than failing the parse
or classifying the reply as unrecognised. -/
theorem claim_C4_thm (s : String) (nm g : List Char)
    (hfa : faSearch s.toList = none)
    (htool : toolSearch s.toList = some nm)
    (hargs : argsSearch s.toList = some g)
    (hjson : jsonLoadsObj g = none) :
    parse_response s = (some (String.mk (pyStrip nm)), [], none) := by
  have hfa' : faSearch s.data = none := hfa
  have htool' : toolSearch s.data = some nm := htool
  have hargs' : argsSearch s.data = some g := hargs
  simp [parse_response, parseResponseL, hfa', htool', hargs', hjson]

/-- Witness for C4: a concrete reply whose `ARGS:` block is not JSON still
dispatches as a `calculator` tool call with empty arguments. -/
theorem claim_C4_witness :
    parse_response "TOOL: calculator\nARGS: \x7bnot json\x7d" = (some "calculator", [], none) :=
  claim_C4_thm "TOOL: calculator\nARGS: \x7bnot json\x7d" ("calculator".toList)
    (("\x7bnot json\x7d").toList) rfl rfl rfl rfl

/-- The messages one iteration appends to the transcript: the raw assistant
reply followed by the observation (tool step) or by the corrective nudge
(unrecognised reply); terminal iterations append nothing. -/
def eventMessages : IterEvent → List Message
  | IterEvent.toolStep reply _ _ obs => [⟨"assistant", reply⟩, ⟨"user", "OBSERVATION: " ++ obs⟩]
  | IterEvent.nudgeStep reply => [⟨"assistant", reply⟩, ⟨"user", nudgeMsg⟩]
  | _ => []

/-- Number of tool dispatches recorded in a trace. -/
def dispatchCount (events : List IterEvent) : Nat :=
  events.countP (fun ev =>
    match ev with
    | IterEvent.toolStep _ _ _ _ => true
    | _ => false)

/-- Concrete tool behaviours used by the witnesses: a returning tool, an
argument-mismatch tool, a failing tool. -/
def demoImpls : ToolImpls :=
  { calculator := fun _ => ToolResult.ok "Calculation result: 2+2 = 4"
    get_weather := fun _ => ToolResult.typeErrorRaised "unexpected keyword argument"
    get_earthquake_data := fun _ => ToolResult.exceptionRaised "network down"
    search_arxiv := fun _ => ToolResult.ok "papers"
    get_currency_exchange := fun _ => ToolResult.ok "rate" }

/-- Claim C5: `_execute_tool` is total by construction (it returns a string
on every path; both `except` arms convert the raised exception to text).
Moreover: a name outside the registry yields the deterministic error text
naming the unknown tool and enumerating all five registered names in
registry order; a raised `TypeError` yields the invalid-arguments text; any
other raised exception yields the generic failure text; and a normal return
is passed through as the observation. -/
theorem claim_C5_thm (impls : ToolImpls) (tool_name : String) (args : List (String × JValue)) :
    ((TOOLS impls).map Prod.fst =
      ["calculator", "get_weather", "get_earthquake_data", "search_arxiv", "get_currency_exchange"])
    ∧ ((TOOLS impls).lookup tool_name = none →
        execute_tool impls tool_name args =
          "ERROR: Unknown tool " ++ apostr ++ tool_name ++ apostr ++ ". Available tools: "
            ++ String.intercalate ", " ((TOOLS impls).map Prod.fst))
    ∧ (∀ f, (TOOLS impls).lookup tool_name = some f →
        (∀ obs, f args = ToolResult.ok obs → execute_tool impls tool_name args = obs)
        ∧ (∀ e, f args = ToolResult.typeErrorRaised e →
            execute_tool impls tool_name args =
              "ERROR: Invalid arguments for tool " ++ apostr ++ tool_name ++ apostr ++ ": " ++ e)
        ∧ (∀ e, f args = ToolResult.exceptionRaised e →
            execute_tool impls tool_name args = "ERROR: Tool execution failed: " ++ e)) := by
  refine ⟨rfl, ?_, ?_⟩
  · intro h
    simp [execute_tool, h]
  · intro f hf
    refine ⟨?_, ?_, ?_⟩ <;> intro x hx <;> simp [execute_tool, hf, hx]

/-- Witness for C5: dispatch outcomes at concrete names and behaviours. -/
theorem claim_C5_witness :
    execute_tool demoImpls "frobnicate" [] =
      "ERROR: Unknown tool " ++ apostr ++ "frobnicate" ++ apostr ++
        ". Available tools: calculator, get_weather, get_earthquake_data, search_arxiv, get_currency_exchange" ∧
    execute_tool demoImpls "get_weather" [] =
      "ERROR: Invalid arguments for tool " ++ apostr ++ "get_weather" ++ apostr ++
        ": unexpected keyword argument" ∧
    execute_tool demoImpls "get_earthquake_data" [] = "ERROR: Tool execution failed: network down" ∧
    execute_tool demoImpls "calculator" [] = "Calculation result: 2+2 = 4" := by
  refine ⟨?_, ?_, ?_, ?_⟩
  · exact (claim_C5_thm demoImpls "frobnicate" []).2.1 rfl
  · exact ((claim_C5_thm demoImpls "get_weather" []).2.2 _ rfl).2.1 _ rfl
  · exact ((claim_C5_thm demoImpls "get_earthquake_data" []).2.2 _ rfl).2.2 _ rfl
  · exact ((claim_C5_thm demoImpls "calculator" []).2.2 _ rfl).1 _ rfl

/-- Last element of a cons is the last element of its non-empty tail. -/
theorem getLast?_cons_of_ne {α : Type} (a : α) {es : List α} (h : es ≠ []) :
    (a :: es).getLast? = es.getLast? := by
  cases es with
  | nil => exact absurd rfl h
  | cons b bs => exact List.getLast?_cons_cons

/-- A list with a last element is non-empty. -/
theorem ne_nil_of_getLast?_eq_some {α : Type} {l : List α} {x : α}
    (h : l.getLast? = some x) : l ≠ [] := by
  intro hcon
  rw [hcon] at h
  simp at h

/-- Every run of the loop either executes its full budget of iterations (one
completion call each) or its last executed iteration is a communication
failure or a final answer. -/
theorem runLoop_length_or_last (impls : ToolImpls) (chat : List Message → Except String String) :
    ∀ (rem N : Nat) (msgs : List Message),
      (runLoop impls chat msgs rem N).events.length = rem ∨
      (∃ e, (runLoop impls chat msgs rem N).events.getLast? = some (IterEvent.commFailure e)) ∨
      (∃ resp a, (runLoop impls chat msgs rem N).events.getLast? =
        some (IterEvent.finalAnswerReached resp a)) := by
  intro rem
  induction rem with
  | zero => intro N msgs; left; rfl
  | succ r ih =>
    intro N msgs
    cases hchat : chat msgs with
    | error e =>
      right; left
      exact ⟨e, by simp [runLoop, hchat]⟩
    | ok resp =>
      cases hfa : optStrTruthy (parseResponseL resp.data).2.2 with
      | true =>
        right; right
        refine ⟨resp, String.mk ((parseResponseL resp.data).2.2.getD []), ?_⟩
        simp [runLoop, hchat, hfa]
      | false =>
        cases htn : optStrTruthy (parseResponseL resp.data).1 with
        | true =>
          rcases ih N (msgs ++ [⟨"assistant", resp⟩,
            ⟨"user", "OBSERVATION: " ++ execute_tool impls
              (String.mk ((parseResponseL resp.data).1.getD []))
              (parseResponseL resp.data).2.1⟩]) with hlen | hlast | hlast
          · left; simp [runLoop, hchat, hfa, htn, hlen]
          · right; left
            obtain ⟨e, he⟩ := hlast
            have hne := ne_nil_of_getLast?_eq_some he
            refine ⟨e, ?_⟩
            simpa [runLoop, hchat, hfa, htn, getLast?_cons_of_ne _ hne] using he
          · right; right
            obtain ⟨resp2, a2, he⟩ := hlast
            have hne := ne_nil_of_getLast?_eq_some he
            refine ⟨resp2, a2, ?_⟩
            simpa [runLoop, hchat, hfa, htn, getLast?_cons_of_ne _ hne] using he
        | false =>
          rcases ih N (msgs ++ [⟨"assistant", resp⟩, ⟨"user", nudgeMsg⟩]) with hlen | hlast | hlast
          · left; simp [runLoop, hchat, hfa, htn, hlen]
          · right; left
            obtain ⟨e, he⟩ := hlast
            have hne := ne_nil_of_getLast?_eq_some he
            refine ⟨e, ?_⟩
            simpa [runLoop, hchat, hfa, htn, getLast?_cons_of_ne _ hne] using he
          · right; right
            obtain ⟨resp2, a2, he⟩ := hlast
            have hne := ne_nil_of_getLast?_eq_some he
            refine ⟨resp2, a2, ?_⟩
            simpa [runLoop, hchat, hfa, htn, getLast?_cons_of_ne _ hne] using he

/-- A property holding of the head and of all non-last elements of the tail
holds of all non-last elements of the cons (for a non-empty tail the head is
not last; for an empty tail there are no non-last elements). -/
theorem dropLast_cons_mem {α : Type} {x : α} {es : List α} {P : α → Prop}
    (hx : P x) (hes : ∀ e ∈ es.dropLast, P e) : ∀ e ∈ (x :: es).dropLast, P e := by
  intro e he
  cases es with
  | nil => simp at he
  | cons b bs =>
    rw [List.dropLast_cons₂] at he
    rcases List.mem_cons.mp he with he | he
    · rw [he]; exact hx
    · exact hes e he

/-- Under a completion client that never raises and whose replies never parse
as a final answer, every iteration recurses (tool step or nudge), so the loop
runs its whole budget and returns the budget-exhausted message. -/
theorem runLoop_budget (impls : ToolImpls) (chat : List Message → Except String String)
    (h1 : ∀ msgs : List Message, ∃ resp, chat msgs = Except.ok resp)
    (h2 : ∀ (msgs : List Message) (resp : String), chat msgs = Except.ok resp →
      (parseResponseL resp.toList).2.2 = none) :
    ∀ (rem N : Nat) (msgs : List Message),
      (runLoop impls chat msgs rem N).answer = budgetExhaustedMsg N ∧
      (runLoop impls chat msgs rem N).events.length = rem := by
  intro rem
  induction rem with
  | zero => intro N msgs; exact ⟨rfl, rfl⟩
  | succ r ih =>
    intro N msgs
    obtain ⟨resp, hresp⟩ := h1 msgs
    have hfa0 : (parseResponseL resp.data).2.2 = none := h2 msgs resp hresp
    have hfa : optStrTruthy (parseResponseL resp.data).2.2 = false := by rw [hfa0]; rfl
    cases htn : optStrTruthy (parseResponseL resp.data).1 with
    | true =>
      have hrec := ih N (msgs ++ [⟨"assistant", resp⟩,
        ⟨"user", "OBSERVATION: " ++ execute_tool impls
          (String.mk ((parseResponseL resp.data).1.getD []))
          (parseResponseL resp.data).2.1⟩])
      exact ⟨by simp [runLoop, hresp, hfa, htn, hrec.1],
        by simp [runLoop, hresp, hfa, htn, hrec.2]⟩
    | false =>
      have hrec := ih N (msgs ++ [⟨"assistant", resp⟩, ⟨"user", nudgeMsg⟩])
      exact ⟨by simp [runLoop, hresp, hfa, htn, hrec.1],
        by simp [runLoop, hresp, hfa, htn, hrec.2]⟩

/-- Claim C7: if the completion client never fails and no reply ever parses
as a final answer, a run with configured maximum `max_iterations` makes
exactly that many completion calls (one per recorded iteration event) and
returns the budget-exhausted message, which names `max_iterations`. -/
theorem claim_C7_thm (impls : ToolImpls) (chat : List Message → Except String String)
    (user_query : String) (max_iterations : Nat)
    (h1 : ∀ msgs : List Message, ∃ resp, chat msgs = Except.ok resp)
    (h2 : ∀ (msgs : List Message) (resp : String), chat msgs = Except.ok resp →
      (parseResponseL resp.toList).2.2 = none) :
    (run impls chat user_query max_iterations).answer = budgetExhaustedMsg max_iterations ∧
    (run impls chat user_query max_iterations).events.length = max_iterations :=
  runLoop_budget impls chat h1 h2 max_iterations max_iterations (initialMessages user_query)

/-- Witness for C7: a scripted model that always replies `thinking...`
(neither marker) exhausts a budget of two iterations. -/
theorem claim_C7_witness :
    (run demoImpls (fun _ => Except.ok "thinking...") "q" 2).answer = budgetExhaustedMsg 2 ∧
    (run demoImpls (fun _ => Except.ok "thinking...") "q" 2).events.length = 2 :=
  claim_C7_thm demoImpls (fun _ => Except.ok "thinking...") "q" 2
    (fun _ => ⟨"thinking...", rfl⟩)
    (fun _ resp h => by cases h; rfl)

/-- Every run answer is the budget message, a communication-error message, or
a genuine (non-empty) parsed final answer of some reply, recorded as the last
iteration event. -/
theorem runLoop_cases (impls : ToolImpls) (chat : List Message → Except String String) :
    ∀ (rem N : Nat) (msgs : List Message),
      (runLoop impls chat msgs rem N).answer = budgetExhaustedMsg N ∨
      (∃ e, (runLoop impls chat msgs rem N).answer = llmErrorMsg e) ∨
      (∃ resp l, (runLoop impls chat msgs rem N).answer = String.mk l ∧
        (parseResponseL resp.toList).2.2 = some l ∧ l ≠ [] ∧
        (runLoop impls chat msgs rem N).events.getLast? =
          some (IterEvent.finalAnswerReached resp (String.mk l))) := by
  intro rem
  induction rem with
  | zero => intro N msgs; left; rfl
  | succ r ih =>
    intro N msgs
    cases hchat : chat msgs with
    | error e =>
      right; left
      exact ⟨e, by simp [runLoop, hchat]⟩
    | ok resp =>
      cases hfa : optStrTruthy (parseResponseL resp.data).2.2 with
      | true =>
        right; right
        cases hfa2 : (parseResponseL resp.data).2.2 with
        | none => rw [hfa2] at hfa; simp [optStrTruthy] at hfa
        | some l =>
          have hl : l ≠ [] := by
            rw [hfa2] at hfa
            simpa [optStrTruthy] using hfa
          have hts : optStrTruthy (some l) = true := by
            cases l with
            | nil => exact absurd rfl hl
            | cons a as => rfl
          refine ⟨resp, l, ?_, hfa2, hl, ?_⟩
          · simp [runLoop, hchat, hfa, hfa2, hts]
          · simp [runLoop, hchat, hfa, hfa2, hts]
      | false =>
        cases htn : optStrTruthy (parseResponseL resp.data).1 with
        | true =>
          rcases ih N (msgs ++ [⟨"assistant", resp⟩,
            ⟨"user", "OBSERVATION: " ++ execute_tool impls
              (String.mk ((parseResponseL resp.data).1.getD []))
              (parseResponseL resp.data).2.1⟩]) with h | h | h
          · left; simp [runLoop, hchat, hfa, htn, h]
          · right; left
            obtain ⟨e, he⟩ := h
            exact ⟨e, by simp [runLoop, hchat, hfa, htn, he]⟩
          · right; right
            obtain ⟨resp2, l, ha, hp, hl, hlast⟩ := h
            have hne := ne_nil_of_getLast?_eq_some hlast
            refine ⟨resp2, l, ?_, hp, hl, ?_⟩
            · simp [runLoop, hchat, hfa, htn, ha]
            · simp [runLoop, hchat, hfa, htn, getLast?_cons_of_ne _ hne, hlast]
        | false =>
          rcases ih N (msgs ++ [⟨"assistant", resp⟩, ⟨"user", nudgeMsg⟩]) with h | h | h
          · left; simp [runLoop, hchat, hfa, htn, h]
          · right; left
            obtain ⟨e, he⟩ := h
            exact ⟨e, by simp [runLoop, hchat, hfa, htn, he]⟩
          · right; right
            obtain ⟨resp2, l, ha, hp, hl, hlast⟩ := h
            have hne := ne_nil_of_getLast?_eq_some hlast
            refine ⟨resp2, l, ?_, hp, hl, ?_⟩
            · simp [runLoop, hchat, hfa, htn, ha]
            · simp [runLoop, hchat, hfa, htn, getLast?_cons_of_ne _ hne, hlast]

/-- Claim C8: `run` is total at the public boundary — the embedding returns a
`RunTrace` (whose answer is a string) for every query, client behaviour and
tool behaviour, mirroring the source in which every loop exit returns a
string and both completion-call failure and every tool failure are caught.
The returned answer is always one of: the budget-exhaustion message, the
LLM-communication-error message, or a genuine final answer (the non-empty
parsed final-answer text of the last reply). -/
theorem claim_C8_thm (impls : ToolImpls) (chat : List Message → Except String String)
    (user_query : String) (max_iterations : Nat) :
    (run impls chat user_query max_iterations).answer = budgetExhaustedMsg max_iterations ∨
    (∃ e, (run impls chat user_query max_iterations).answer = llmErrorMsg e) ∨
    (∃ resp l, (run impls chat user_query max_iterations).answer = String.mk l ∧
      (parseResponseL resp.toList).2.2 = some l ∧ l ≠ [] ∧
      (run impls chat user_query max_iterations).events.getLast? =
        some (IterEvent.finalAnswerReached resp (String.mk l))) :=
  runLoop_cases impls chat max_iterations max_iterations (initialMessages user_query)

/-- Claim C6: a completion-client exception on the first call terminates the
run at once with the error-describing answer, after exactly one completion
call (one recorded event) and zero tool dispatches; and in general a run that
stops before exhausting its budget stopped at a communication failure or at a
final answer — no other transition ends a run early. -/
theorem claim_C6_thm (impls : ToolImpls) (chat : List Message → Except String String)
    (user_query : String) (max_iterations : Nat) :
    (∀ e, 0 < max_iterations → chat (initialMessages user_query) = Except.error e →
      run impls chat user_query max_iterations =
        ⟨llmErrorMsg e, [IterEvent.commFailure e], initialMessages user_query⟩ ∧
      (run impls chat user_query max_iterations).events.length = 1 ∧
      dispatchCount (run impls chat user_query max_iterations).events = 0)
    ∧ ((run impls chat user_query max_iterations).events.length < max_iterations →
      (∃ e, (run impls chat user_query max_iterations).events.getLast? =
        some (IterEvent.commFailure e)) ∨
      (∃ resp a, (run impls chat user_query max_iterations).events.getLast? =
        some (IterEvent.finalAnswerReached resp a))) := by
  constructor
  · intro e hN hchat
    obtain ⟨r, rfl⟩ : ∃ r, max_iterations = r + 1 := ⟨max_iterations - 1, by omega⟩
    have hrun : run impls chat user_query (r + 1) =
        ⟨llmErrorMsg e, [IterEvent.commFailure e], initialMessages user_query⟩ := by
      simp [run, runLoop, hchat]
    refine ⟨hrun, ?_, ?_⟩
    · rw [hrun]; rfl
    · rw [hrun]; rfl
  · intro hlen
    rcases runLoop_length_or_last impls chat max_iterations max_iterations
      (initialMessages user_query) with h | h | h
    · have h' : (run impls chat user_query max_iterations).events.length = max_iterations := h
      omega
    · exact Or.inl h
    · exact Or.inr h

/-- Witness for C6: a client that raises `boom` on every call. -/
theorem claim_C6_witness :
    run demoImpls (fun _ => Except.error "boom") "q" 3 =
      ⟨llmErrorMsg "boom", [IterEvent.commFailure "boom"], initialMessages "q"⟩ ∧
    dispatchCount (run demoImpls (fun _ => Except.error "boom") "q" 3).events = 0 := by
  have h := (claim_C6_thm demoImpls (fun _ => Except.error "boom") "q" 3).1 "boom" (by omega) rfl
  exact ⟨h.1, h.2.2⟩

/-- The transcript of a run is the initial transcript extended, in order, by
exactly the per-iteration message pairs — the raw assistant reply followed by
the observation (after a tool dispatch) or by the corrective nudge — and
every iteration except possibly the terminal one is a tool step or a nudge
step. -/
theorem runLoop_transcript (impls : ToolImpls) (chat : List Message → Except String String) :
    ∀ (rem N : Nat) (msgs : List Message),
      (runLoop impls chat msgs rem N).transcript =
        msgs ++ ((runLoop impls chat msgs rem N).events.map eventMessages).join ∧
      (∀ ev ∈ (runLoop impls chat msgs rem N).events.dropLast,
        (∃ reply nm args obs, ev = IterEvent.toolStep reply nm args obs) ∨
        (∃ reply, ev = IterEvent.nudgeStep reply)) := by
  intro rem
  induction rem with
  | zero => intro N msgs; exact ⟨by simp [runLoop], by simp [runLoop]⟩
  | succ r ih =>
    intro N msgs
    cases hchat : chat msgs with
    | error e =>
      refine ⟨by simp [runLoop, hchat, eventMessages], ?_⟩
      simp [runLoop, hchat]
    | ok resp =>
      cases hfa : optStrTruthy (parseResponseL resp.data).2.2 with
      | true =>
        refine ⟨by simp [runLoop, hchat, hfa, eventMessages], ?_⟩
        simp [runLoop, hchat, hfa]
      | false =>
        cases htn : optStrTruthy (parseResponseL resp.data).1 with
        | true =>
          have hrec := ih N (msgs ++ [⟨"assistant", resp⟩,
            ⟨"user", "OBSERVATION: " ++ execute_tool impls
              (String.mk ((parseResponseL resp.data).1.getD []))
              (parseResponseL resp.data).2.1⟩])
          constructor
          · simp [runLoop, hchat, hfa, htn, eventMessages, hrec.1, List.append_assoc]
          · have hstep : (runLoop impls chat msgs (r + 1) N).events =
                IterEvent.toolStep resp (String.mk ((parseResponseL resp.data).1.getD []))
                  (parseResponseL resp.data).2.1
                  (execute_tool impls (String.mk ((parseResponseL resp.data).1.getD []))
                    (parseResponseL resp.data).2.1) ::
                (runLoop impls chat (msgs ++ [⟨"assistant", resp⟩,
                  ⟨"user", "OBSERVATION: " ++ execute_tool impls
                    (String.mk ((parseResponseL resp.data).1.getD []))
                    (parseResponseL resp.data).2.1⟩]) r N).events := by
              simp [runLoop, hchat, hfa, htn]
            rw [hstep]
            exact dropLast_cons_mem (Or.inl ⟨_, _, _, _, rfl⟩) hrec.2
        | false =>
          have hrec := ih N (msgs ++ [⟨"assistant", resp⟩, ⟨"user", nudgeMsg⟩])
          constructor
          · simp [runLoop, hchat, hfa, htn, eventMessages, hrec.1, List.append_assoc]
          · have hstep : (runLoop impls chat msgs (r + 1) N).events =
                IterEvent.nudgeStep resp ::
                (runLoop impls chat (msgs ++ [⟨"assistant", resp⟩, ⟨"user", nudgeMsg⟩]) r N).events := by
              simp [runLoop, hchat, hfa, htn]
            rw [hstep]
            exact dropLast_cons_mem (Or.inr ⟨_, rfl⟩) hrec.2

/-- Claim C9: for every run, the final transcript is the initial transcript
(system prompt, then query) extended append-only by one assistant-reply /
observation-or-nudge pair per non-terminal iteration, in causal order; every
iteration records exactly one of {tool dispatch, corrective nudge, terminal
transition} (one `IterEvent` constructor each), and only the last recorded
iteration can be terminal. -/
theorem claim_C9_thm (impls : ToolImpls) (chat : List Message → Except String String)
    (user_query : String) (max_iterations : Nat) :
    (run impls chat user_query max_iterations).transcript =
      initialMessages user_query ++
        ((run impls chat user_query max_iterations).events.map eventMessages).join ∧
    (∀ ev ∈ (run impls chat user_query max_iterations).events.dropLast,
      (∃ reply nm args obs, ev = IterEvent.toolStep reply nm args obs) ∨
      (∃ reply, ev = IterEvent.nudgeStep reply)) :=
  runLoop_transcript impls chat max_iterations max_iterations (initialMessages user_query)
